import Mathlib

/-!
Verification development for the Open-Lab-Automation frontend
(`src/frontend/main.py`): a shallow embedding of the project/instrument
data model and its operations, with theorems settling the frozen claims.

Python strings are modelled as `List Char`; Python floats as `ℚ`
(exact real-number semantics of the decimal literals involved).
-/

/-! ## Python string primitives -/

/-- Python `str.strip()` with no argument: remove whitespace from both ends. -/
def pyStrip (s : List Char) : List Char :=
  ((s.dropWhile Char.isWhitespace).reverse.dropWhile Char.isWhitespace).reverse

/-- Python `str.lower()` (ASCII case is all the repository uses). -/
def pyLower (s : List Char) : List Char := s.map Char.toLower

/-- Python `str.replace(',', '.')`: single-character replacement. -/
def commaToDot (s : List Char) : List Char :=
  s.map (fun c => if c = ',' then '.' else c)

/-- Python `str.replace(c, '')`: remove every occurrence of the character. -/
def removeChar (c : Char) (s : List Char) : List Char :=
  s.filter (fun x => x ≠ c)

/-- `pat` occurs at the start of `s`. -/
def startsWith : List Char → List Char → Bool
  | [], _ => true
  | _ :: _, [] => false
  | a :: asx, b :: bs => a = b && startsWith asx bs

/-- Python `pat in s`: substring containment. -/
def hasSubstring (pat : List Char) : List Char → Bool
  | [] => pat.isEmpty
  | c :: rest => startsWith pat (c :: rest) || hasSubstring pat rest

/-! ## Model of Python `float(...)` on decimal literals

`float()` strips whitespace, accepts an optional sign, then a decimal
literal `digits [. digits] [e [sign] digits]` (at least one digit in the
mantissa). Its value is modelled exactly in `ℚ`. Forms outside this
grammar (`inf`, `nan`, underscore separators) are out of the repository's
input space and map to `none`, like any other parse failure. -/

/-- Numeric value of a digit character. -/
def digitVal (c : Char) : Nat := c.toNat - 48

/-- Value of a big-endian digit string. -/
def digitsToNat (l : List Char) : Nat :=
  l.foldl (fun a c => 10 * a + digitVal c) 0

/-- All characters are decimal digits. -/
def allDigits (l : List Char) : Bool := l.all Char.isDigit

/-- Parse the exponent tail: empty, or `e`/`E`, optional sign, digits. -/
def parseExp (s : List Char) : Option ℤ :=
  match s with
  | [] => some 0
  | c :: rest =>
    if c = 'e' ∨ c = 'E' then
      match rest with
      | '+' :: ds => if ds ≠ [] ∧ allDigits ds then some ((digitsToNat ds : ℤ)) else none
      | '-' :: ds => if ds ≠ [] ∧ allDigits ds then some (-(digitsToNat ds : ℤ)) else none
      | ds => if ds ≠ [] ∧ allDigits ds then some ((digitsToNat ds : ℤ)) else none
    else none

/-- Parse an unsigned decimal literal (mantissa plus optional exponent). -/
def pyFloatCore (s : List Char) : Option ℚ :=
  let ip := s.takeWhile Char.isDigit
  let r1 := s.dropWhile Char.isDigit
  match r1 with
  | '.' :: r2 =>
    let fp := r2.takeWhile Char.isDigit
    let r3 := r2.dropWhile Char.isDigit
    if ip.length + fp.length = 0 then none
    else (parseExp r3).map
      (fun e => (digitsToNat (ip ++ fp) : ℚ) / 10 ^ fp.length * (10 : ℚ) ^ e)
  | _ =>
    if ip = [] then none
    else (parseExp r1).map (fun e => (digitsToNat ip : ℚ) * (10 : ℚ) ^ e)

/-- Optional leading sign. -/
def pyFloatSigned (s : List Char) : Option ℚ :=
  match s with
  | '-' :: rest => (pyFloatCore rest).map (fun q => -q)
  | '+' :: rest => pyFloatCore rest
  | _ => pyFloatCore s

/-- Python `float(s)`: strip whitespace, then signed decimal literal. -/
def pyFloat (s : List Char) : Option ℚ := pyFloatSigned (pyStrip s)

/-! ## `WasFileDialog.parse_time` (src/frontend/main.py:1050-1071) -/

/-- Normalization prefix of `parse_time`:
`s.strip().lower().replace(',', '.')`. -/
def normTime (s : List Char) : List Char := commaToDot (pyLower (pyStrip s))

/-- `WasFileDialog.parse_time`, translated line by line: after
normalization, test the suffix characters by containment in the checked
order, remove every occurrence of the suffix and parse the rest as a
float, applying the multiplier; the dead `'1n1' in s` branch is kept;
a parse failure (Python exception) yields `none`. -/
def parse_time (input : List Char) : Option ℚ :=
  if (normTime input).contains 'k' then
    (pyFloat (removeChar 'k' (normTime input))).map (fun q => q * 1000)
  else if (normTime input).contains 'm' then
    (pyFloat (removeChar 'm' (normTime input))).map (fun q => q * (1 / 1000))
  else if (normTime input).contains 'u' then
    (pyFloat (removeChar 'u' (normTime input))).map (fun q => q * (1 / 1000000))
  else if (normTime input).contains 'n' then
    (pyFloat (removeChar 'n' (normTime input))).map (fun q => q * (1 / 1000000000))
  else if (normTime input).contains 'p' then
    (pyFloat (removeChar 'p' (normTime input))).map (fun q => q * (1 / 1000000000000))
  else if hasSubstring ['1', 'n', '1'] (normTime input) then some (1 / 1000000000)
  else pyFloat (normTime input)

/-- `parseEngineeringTime` as the specification describes it: normalize,
test the suffixes `k,m,u,n,p` in that order, multiply; a bare numeric
string parses directly; unparseable input yields `none`. (The spec does
not mention the dead `'1n1'` branch.) -/
def parseEngineeringTime (input : List Char) : Option ℚ :=
  if (normTime input).contains 'k' then
    (pyFloat (removeChar 'k' (normTime input))).map (fun q => q * 1000)
  else if (normTime input).contains 'm' then
    (pyFloat (removeChar 'm' (normTime input))).map (fun q => q * (1 / 1000))
  else if (normTime input).contains 'u' then
    (pyFloat (removeChar 'u' (normTime input))).map (fun q => q * (1 / 1000000))
  else if (normTime input).contains 'n' then
    (pyFloat (removeChar 'n' (normTime input))).map (fun q => q * (1 / 1000000000))
  else if (normTime input).contains 'p' then
    (pyFloat (removeChar 'p' (normTime input))).map (fun q => q * (1 / 1000000000000))
  else pyFloat (normTime input)

unseal Rat.mul Rat.inv Rat.add Rat.sub in
theorem ex_100k : parse_time ['1', '0', '0', 'k'] = some 100000 := by decide

unseal Rat.mul Rat.inv Rat.add Rat.sub in
theorem ex_1u : parse_time ['1', 'u'] = some (1 / 1000000) := by decide

unseal Rat.mul Rat.inv Rat.add Rat.sub in
theorem ex_0001 : parse_time ['0', '.', '0', '0', '1'] = some (1 / 1000) := by decide

unseal Rat.mul Rat.inv Rat.add Rat.sub in
theorem ex_abc : parse_time ['a', 'b', 'c'] = none := by decide

unseal Rat.mul Rat.inv Rat.add Rat.sub in
theorem ex_1n1 : parse_time ['1', 'n', '1'] = some (11 / 1000000000) := by decide

unseal Rat.mul Rat.inv Rat.add Rat.sub in
theorem ex_1n1_ne : parse_time ['1', 'n', '1'] ≠ some (1 / 1000000000) := by decide

/-- Characters of a matched prefix are characters of the string. -/
theorem startsWith_mem {pat s : List Char} (h : startsWith pat s = true) :
    ∀ a ∈ pat, a ∈ s := by
  induction pat generalizing s with
  | nil => intro a ha; cases ha
  | cons p ps ih =>
    cases s with
    | nil => simp [startsWith] at h
    | cons b bs =>
      simp only [startsWith, Bool.and_eq_true, decide_eq_true_eq] at h
      intro a ha
      rcases List.mem_cons.mp ha with rfl | hmem
      · exact h.1 ▸ List.mem_cons_self _ _
      · exact List.mem_cons_of_mem _ (ih h.2 a hmem)

/-- Characters of a contained substring are characters of the string. -/
theorem hasSubstring_mem {pat s : List Char} (h : hasSubstring pat s = true) :
    ∀ a ∈ pat, a ∈ s := by
  induction s with
  | nil =>
    intro a ha
    simp only [hasSubstring, List.isEmpty_iff] at h
    subst h; cases ha
  | cons c rest ih =>
    simp only [hasSubstring, Bool.or_eq_true] at h
    intro a ha
    rcases h with h | h
    · exact startsWith_mem h a ha
    · exact List.mem_cons_of_mem _ (ih h a ha)

/-- The `'1n1' in s` branch of `parse_time` is dead code: removing it (as
the specification's description of `parseEngineeringTime` does) yields the
same function, because a string containing `"1n1"` contains `'n'` and the
`'n'` branch is tested first. -/
theorem parse_time_eq_parseEngineeringTime (s : List Char) :
    parse_time s = parseEngineeringTime s := by
  unfold parse_time parseEngineeringTime
  split_ifs with h1 h2 h3 h4 h5 h6 <;> try rfl
  exfalso
  apply h4
  have hn : 'n' ∈ normTime s := hasSubstring_mem h6 'n' (by simp)
  simpa using hn

/-- C1: `parse_time` implements the specified `parseEngineeringTime`:
after normalization it tests the suffixes `k,m,u,n,p` in that order by
substring containment and applies the multipliers `1e3,1e-3,1e-6,1e-9,1e-12`
to the remaining digits parsed as a float, a bare numeric string parses
directly, and unparseable input yields `none`; in particular
`parse_time "100k" = 100000.0`, `parse_time "1u" = 1e-6`,
`parse_time "0.001" = 0.001` and `parse_time "abc" = none`. -/
theorem parse_time_matches_parseEngineeringTime :
    (∀ s : List Char, parse_time s = parseEngineeringTime s) ∧
    parse_time ['1', '0', '0', 'k'] = some 100000 ∧
    parse_time ['1', 'u'] = some (1 / 1000000) ∧
    parse_time ['0', '.', '0', '0', '1'] = some (1 / 1000) ∧
    parse_time ['a', 'b', 'c'] = none :=
  ⟨parse_time_eq_parseEngineeringTime, ex_100k, ex_1u, ex_0001, ex_abc⟩

/-- C9: the `'1n1' in s` branch of `parse_time` is unreachable: whenever
the normalized string contains the substring `"1n1"` it also contains the
character `'n'`, so the earlier `'n'` branch fires first; the parser
behaves exactly as if the branch were removed, and `"1n1"` parses to
`float("11") * 1e-9 = 1.1e-8`, not `1e-9`. -/
theorem parse_time_1n1_branch_dead :
    (∀ s : List Char, hasSubstring ['1', 'n', '1'] (normTime s) = true →
      (normTime s).contains 'n' = true) ∧
    (∀ s : List Char, parse_time s = parseEngineeringTime s) ∧
    parse_time ['1', 'n', '1'] = some (11 / 1000000000) ∧
    parse_time ['1', 'n', '1'] ≠ some (1 / 1000000000) :=
  ⟨fun s h => by simpa using hasSubstring_mem h 'n' (by simp),
   parse_time_eq_parseEngineeringTime, ex_1n1, ex_1n1_ne⟩

/-- Witness for C9: the concrete input `"1n1"` satisfies the substring
hypothesis, and the conclusion holds there. -/
theorem parse_time_1n1_branch_dead_witness :
    (normTime ['1', 'n', '1']).contains 'n' = true :=
  parse_time_1n1_branch_dead.1 ['1', 'n', '1'] (by decide)

/-! ## Instrument documents (`InstFileDialog`, src/frontend/main.py)

An instrument instance is the dict built by
`InstFileDialog.add_instrument_to_inst` (main.py:1385-1428): the
`instance_name` plus the six fields the dialog writes. A channel config
is the dict built by `update_channels_widget` / `ChannelConfigDialog`. -/

/-- A channel configuration dict. The dialogs always populate `index`,
`used` and `attenuation`; `var` models the `variable` key of setpoint
instruments and `measured_variable`/`measure_type` the datalogger keys. -/
structure Channel where
  index : Nat
  used : Bool
  var : List Char
  measured_variable : List Char
  measure_type : List Char
  attenuation : ℚ
deriving DecidableEq

/-- An instrument instance dict as written by the dialog. -/
structure Instrument where
  instance_name : List Char
  instrument_type : List Char
  series : List Char
  model : List Char
  connection_type : List Char
  visa_address : List Char
  channels : List Channel
deriving DecidableEq

/-- The add-or-replace loop of `InstFileDialog.add_instrument_to_inst`
(main.py:1402-1425): scan `instruments` for the first entry whose
`instance_name` equals the new one; if found, `dict.update` overwrites
every field except the (equal) `instance_name` and the loop breaks;
otherwise the new instance is appended. -/
def add_instrument_to_inst : List Instrument → Instrument → List Instrument
  | [], newInst => [newInst]
  | inst :: rest, newInst =>
    if inst.instance_name = newInst.instance_name then
      { newInst with instance_name := inst.instance_name } :: rest
    else
      inst :: add_instrument_to_inst rest newInst

/-- When no instance carries the name, `add_instrument_to_inst` appends. -/
theorem add_instrument_append {doc : List Instrument} {x : Instrument}
    (h : ∀ y ∈ doc, y.instance_name ≠ x.instance_name) :
    add_instrument_to_inst doc x = doc ++ [x] := by
  induction doc with
  | nil => rfl
  | cons a rest ih =>
    rw [add_instrument_to_inst]
    rw [if_neg (h a (List.mem_cons_self a rest))]
    rw [ih (fun y hy => h y (List.mem_cons_of_mem a hy))]
    rfl

/-- When the first occurrence of the name is at a known position,
`add_instrument_to_inst` overwrites in place. -/
theorem add_instrument_replace {pre post : List Instrument} {y x : Instrument}
    (hy : y.instance_name = x.instance_name)
    (hpre : ∀ z ∈ pre, z.instance_name ≠ x.instance_name) :
    add_instrument_to_inst (pre ++ y :: post) x = pre ++ x :: post := by
  induction pre with
  | nil =>
    simp only [List.nil_append, add_instrument_to_inst, if_pos hy]
    have : { x with instance_name := y.instance_name } = x := by
      rw [hy]
    rw [this]
  | cons a rest ih =>
    simp only [List.cons_append, add_instrument_to_inst]
    rw [if_neg (hpre a (List.mem_cons_self a rest))]
    exact congrArg (List.cons a) (ih (fun z hz => hpre z (List.mem_cons_of_mem a hz)))

/-- Decompose a list at the first element whose `instance_name` is `n`. -/
theorem first_occ {l : List Instrument} {n : List Char}
    (h : ∃ y ∈ l, y.instance_name = n) :
    ∃ pre x post, l = pre ++ x :: post ∧ x.instance_name = n ∧
      ∀ z ∈ pre, z.instance_name ≠ n := by
  induction l with
  | nil => obtain ⟨y, hy, _⟩ := h; cases hy
  | cons a rest ih =>
    by_cases ha : a.instance_name = n
    · exact ⟨[], a, rest, rfl, ha, by intro z hz; cases hz⟩
    · have hrest : ∃ y ∈ rest, y.instance_name = n := by
        obtain ⟨y, hy, hyn⟩ := h
        rcases List.mem_cons.mp hy with rfl | hy'
        · exact absurd hyn ha
        · exact ⟨y, hy', hyn⟩
      obtain ⟨pre, x, post, heq, hx, hpre⟩ := ih hrest
      refine ⟨a :: pre, x, post, by rw [heq]; rfl, hx, ?_⟩
      intro z hz
      rcases List.mem_cons.mp hz with rfl | hz'
      · exact ha
      · exact hpre z hz'

/-- C2: adding twice with the same `instance_name` (into a document whose
instances carry that name at most once) leaves exactly one instance with
that name, holding the fields of the latest call; the instance keeps its
original position when the name was already present, and is appended at
the end when it was absent. -/
theorem add_instrument_to_inst_replaces (doc : List Instrument)
    (a b : Instrument) (n : List Char)
    (hcount : doc.countP (fun i => i.instance_name = n) ≤ 1)
    (ha : a.instance_name = n) (hb : b.instance_name = n) :
    ((add_instrument_to_inst (add_instrument_to_inst doc a) b).filter
        (fun i => i.instance_name = n) = [b]) ∧
    (∀ pre x post, doc = pre ++ x :: post → x.instance_name = n →
        (∀ z ∈ pre, z.instance_name ≠ n) →
        add_instrument_to_inst (add_instrument_to_inst doc a) b =
          pre ++ b :: post) ∧
    ((∀ y ∈ doc, y.instance_name ≠ n) →
        add_instrument_to_inst (add_instrument_to_inst doc a) b =
          doc ++ [b]) := by
  have replace2 : ∀ pre x post, doc = pre ++ x :: post → x.instance_name = n →
      (∀ z ∈ pre, z.instance_name ≠ n) →
      add_instrument_to_inst (add_instrument_to_inst doc a) b =
        pre ++ b :: post := by
    intro pre x post hdoc hx hpre
    subst hdoc
    have s1 : add_instrument_to_inst (pre ++ x :: post) a = pre ++ a :: post :=
      add_instrument_replace (hx.trans ha.symm)
        (fun z hz => by rw [ha]; exact hpre z hz)
    have s2 : add_instrument_to_inst (pre ++ a :: post) b = pre ++ b :: post :=
      add_instrument_replace (ha.trans hb.symm)
        (fun z hz => by rw [hb]; exact hpre z hz)
    rw [s1, s2]
  have append2 : (∀ y ∈ doc, y.instance_name ≠ n) →
      add_instrument_to_inst (add_instrument_to_inst doc a) b = doc ++ [b] := by
    intro hno
    have s1 : add_instrument_to_inst doc a = doc ++ [a] :=
      add_instrument_append (fun y hy => by rw [ha]; exact hno y hy)
    have s2 : add_instrument_to_inst (doc ++ [a]) b = doc ++ b :: [] :=
      add_instrument_replace (ha.trans hb.symm)
        (fun z hz => by rw [hb]; exact hno z hz)
    rw [s1, s2]
  refine ⟨?_, replace2, append2⟩
  by_cases hocc : ∃ y ∈ doc, y.instance_name = n
  · obtain ⟨pre, x, post, hdoc, hx, hpre⟩ := first_occ hocc
    rw [replace2 pre x post hdoc hx hpre]
    have hpost : ∀ z ∈ post, z.instance_name ≠ n := by
      intro z hz hzn
      have h1 : 0 < post.countP (fun i => i.instance_name = n) :=
        List.countP_pos_iff.mpr ⟨z, hz, by simpa using hzn⟩
      have h2 : doc.countP (fun i => i.instance_name = n) =
          pre.countP (fun i => i.instance_name = n) +
          (post.countP (fun i => i.instance_name = n) +
            if decide (x.instance_name = n) then 1 else 0) := by
        rw [hdoc, List.countP_append, List.countP_cons]
      rw [if_pos (by simpa using hx)] at h2
      omega
    rw [List.filter_append]
    rw [List.filter_eq_nil_iff.mpr (by intro z hz; simpa using hpre z hz)]
    rw [List.filter_cons_of_pos (by simpa using hb)]
    rw [List.filter_eq_nil_iff.mpr (by intro z hz; simpa using hpost z hz)]
    rfl
  · push_neg at hocc
    rw [append2 hocc]
    rw [List.filter_append]
    rw [List.filter_eq_nil_iff.mpr (by intro z hz; simpa using hocc z hz)]
    rw [List.filter_cons_of_pos (by simpa using hb)]
    rfl

/-- Witness for C2 at a concrete document: one existing instance named
`"x"`, overwritten twice; the document ends with exactly the latest one. -/
theorem add_instrument_to_inst_replaces_witness :
    (add_instrument_to_inst (add_instrument_to_inst
        [⟨['x'], ['p'], [], [], [], [], []⟩]
        ⟨['x'], ['q'], [], [], [], ['a'], []⟩)
        ⟨['x'], ['r'], [], [], [], ['b'], []⟩).filter
      (fun i => i.instance_name = ['x']) =
      [⟨['x'], ['r'], [], [], [], ['b'], []⟩] :=
  (add_instrument_to_inst_replaces [⟨['x'], ['p'], [], [], [], [], []⟩]
    ⟨['x'], ['q'], [], [], [], ['a'], []⟩
    ⟨['x'], ['r'], [], [], [], ['b'], []⟩ ['x']
    (by decide) (by decide) (by decide)).1

/-! ## `EffFileDialog.get_inst_file_variables` (src/frontend/main.py:818-868)

The function's file-system preamble (locating the project json and the
`.inst` file) is I/O glue; the extraction below starts from the parsed
`instruments` list, exactly as the loop at main.py:852-868 does. -/

/-- Python `<` on strings: lexicographic by code point. -/
def pyStrLt : List Char → List Char → Bool
  | [], [] => false
  | [], _ :: _ => true
  | _ :: _, [] => false
  | a :: asx, b :: bs => if a < b then true else if b < a then false else pyStrLt asx bs

/-- Insert into an ascending list (insertion step of `sorted`). -/
def insertSorted (x : List Char) : List (List Char) → List (List Char)
  | [] => [x]
  | y :: ys => if pyStrLt y x then y :: insertSorted x ys else x :: y :: ys

/-- Ascending sort of a list of strings. -/
def sortStrs (l : List (List Char)) : List (List Char) := l.foldr insertSorted []

/-- Python `sorted(set(l))`: the distinct elements in ascending order. -/
def sorted_set (l : List (List Char)) : List (List Char) := sortStrs l.dedup

/-- Instrument-class keys. -/
def psKey : List Char := "power_supplies".toList
/-- Instrument-class keys. -/
def elKey : List Char := "electronic_loads".toList
/-- Instrument-class keys. -/
def dlKey : List Char := "dataloggers".toList

/-- The collection loop of `get_inst_file_variables` (main.py:852-864):
one pass over the instruments, appending non-empty `variable` fields of
`power_supplies`/`electronic_loads` channels to the first accumulator and
non-empty `measured_variable` fields of `dataloggers` channels to the
second. -/
def collect_vars (instruments : List Instrument) :
    List (List Char) × List (List Char) :=
  instruments.foldl
    (fun (acc : List (List Char) × List (List Char)) inst =>
      if inst.instrument_type = psKey ∨ inst.instrument_type = elKey then
        (inst.channels.foldl
          (fun a ch => if ch.var ≠ [] then a ++ [ch.var] else a) acc.1,
         acc.2)
      else if inst.instrument_type = dlKey then
        (acc.1,
         inst.channels.foldl
          (fun a ch => if ch.measured_variable ≠ [] then
              a ++ [ch.measured_variable] else a) acc.2)
      else acc)
    ([], [])

/-- `EffFileDialog.get_inst_file_variables` (main.py:849-868): collect,
then `setpoint_vars = sorted(set(setpoint_vars))` and
`measured_vars = sorted(set(setpoint_vars + measured_vars))`. -/
def get_inst_file_variables (instruments : List Instrument) :
    List (List Char) × List (List Char) :=
  let c := collect_vars instruments
  let setpoint_vars := sorted_set c.1
  (setpoint_vars, sorted_set (setpoint_vars ++ c.2))

/-- `extractVariableNames` as the specification words it: setpoint
variables are the sorted, de-duplicated non-empty `variable` fields over
the channels of `power_supplies`/`electronic_loads` instances; measured
variables are the sorted, de-duplicated union of the setpoint variables
with the non-empty `measured_variable` fields over the channels of
`dataloggers` instances. -/
def extractVariableNames (instruments : List Instrument) :
    List (List Char) × List (List Char) :=
  let sp := sorted_set
    (((instruments.filter
        (fun i => i.instrument_type = psKey ∨ i.instrument_type = elKey)).flatMap
      (fun i => i.channels.map (·.var))).filter (fun v => v ≠ []))
  let mv := sorted_set (sp ++
    (((instruments.filter (fun i => i.instrument_type = dlKey)).flatMap
      (fun i => i.channels.map (·.measured_variable))).filter
        (fun v => v ≠ [])))
  (sp, mv)

/-- The channel loop appends exactly the non-empty values of `f`. -/
theorem channel_fold_appends (f : Channel → List Char) (chs : List Channel)
    (a0 : List (List Char)) :
    chs.foldl (fun a ch => if f ch ≠ [] then a ++ [f ch] else a) a0 =
      a0 ++ (chs.map f).filter (fun v => v ≠ []) := by
  induction chs generalizing a0 with
  | nil => simp
  | cons c rest ih =>
    simp only [List.foldl_cons, List.map_cons, List.filter_cons]
    by_cases hc : f c ≠ []
    · rw [if_pos hc, ih]
      simp [hc, List.append_assoc]
    · rw [if_neg hc, ih]
      simp [hc]

/-- Non-empty `variable` fields of one setpoint instrument's channels. -/
def spVarsOf (i : Instrument) : List (List Char) :=
  (i.channels.map (·.var)).filter (fun v => v ≠ [])

/-- Non-empty `measured_variable` fields of one datalogger's channels. -/
def mvVarsOf (i : Instrument) : List (List Char) :=
  (i.channels.map (·.measured_variable)).filter (fun v => v ≠ [])

/-- The raw setpoint-variable sequence the spec describes. -/
def spFlat (instruments : List Instrument) : List (List Char) :=
  ((instruments.filter
      (fun i => i.instrument_type = psKey ∨ i.instrument_type = elKey)).flatMap
    (fun i => i.channels.map (·.var))).filter (fun v => v ≠ [])

/-- The raw measured-variable sequence the spec describes. -/
def mvFlat (instruments : List Instrument) : List (List Char) :=
  ((instruments.filter (fun i => i.instrument_type = dlKey)).flatMap
    (fun i => i.channels.map (·.measured_variable))).filter (fun v => v ≠ [])

theorem spFlat_cons (i : Instrument) (rest : List Instrument) :
    spFlat (i :: rest) =
      (if i.instrument_type = psKey ∨ i.instrument_type = elKey then
        spVarsOf i else []) ++ spFlat rest := by
  by_cases h : i.instrument_type = psKey ∨ i.instrument_type = elKey
  · simp only [spFlat, spVarsOf, List.filter_cons, if_pos h]
    rw [if_pos (by simpa using h)]
    simp [List.filter_append]
  · simp only [spFlat, List.filter_cons, if_neg h]
    rw [if_neg (by simpa using h)]
    simp

theorem mvFlat_cons (i : Instrument) (rest : List Instrument) :
    mvFlat (i :: rest) =
      (if i.instrument_type = dlKey then mvVarsOf i else []) ++ mvFlat rest := by
  by_cases h : i.instrument_type = dlKey
  · simp only [mvFlat, mvVarsOf, List.filter_cons, if_pos h]
    rw [if_pos (by simpa using h)]
    simp [List.filter_append]
  · simp only [mvFlat, List.filter_cons, if_neg h]
    rw [if_neg (by simpa using h)]
    simp

/-- The single pass of `collect_vars` gathers `spFlat` and `mvFlat`. -/
theorem collect_vars_eq_flat (instruments : List Instrument) :
    ∀ acc : List (List Char) × List (List Char),
      instruments.foldl
        (fun (acc : List (List Char) × List (List Char)) inst =>
          if inst.instrument_type = psKey ∨ inst.instrument_type = elKey then
            (inst.channels.foldl
              (fun a ch => if ch.var ≠ [] then a ++ [ch.var] else a) acc.1,
             acc.2)
          else if inst.instrument_type = dlKey then
            (acc.1,
             inst.channels.foldl
              (fun a ch => if ch.measured_variable ≠ [] then
                  a ++ [ch.measured_variable] else a) acc.2)
          else acc) acc =
      (acc.1 ++ spFlat instruments, acc.2 ++ mvFlat instruments) := by
  induction instruments with
  | nil => intro acc; simp [spFlat, mvFlat]
  | cons i rest ih =>
    intro acc
    rw [List.foldl_cons]
    by_cases h1 : i.instrument_type = psKey ∨ i.instrument_type = elKey
    · rw [if_pos h1, ih, channel_fold_appends]
      rw [spFlat_cons, mvFlat_cons, if_pos h1]
      have hdl : ¬ i.instrument_type = dlKey := by
        rcases h1 with h | h <;> rw [h] <;> decide
      rw [if_neg hdl]
      simp [spVarsOf, List.append_assoc]
    · rw [if_neg h1]
      by_cases h2 : i.instrument_type = dlKey
      · rw [if_pos h2, ih, channel_fold_appends]
        rw [spFlat_cons, mvFlat_cons, if_neg h1, if_pos h2]
        simp [mvVarsOf, List.append_assoc]
      · rw [if_neg h2, ih]
        rw [spFlat_cons, mvFlat_cons, if_neg h1, if_neg h2]
        simp

/-- The example instrument document of the claim: one `power_supplies`
instance with a channel bound to `Vin`, one `dataloggers` instance with a
channel measuring `Iout`. -/
def exampleInstDoc : List Instrument :=
  [⟨"ps1".toList, psKey, [], [], [], [],
      [⟨0, true, "Vin".toList, [], [], 1⟩]⟩,
   ⟨"dl1".toList, dlKey, [], [], [], [],
      [⟨0, true, [], "Iout".toList, "voltage".toList, 1⟩]⟩]

/-- C3: `get_inst_file_variables` computes exactly the spec's
`extractVariableNames` on every instrument document, and on the claim's
example it yields `(["Vin"], ["Iout", "Vin"])`. -/
theorem get_inst_file_variables_matches_spec :
    (∀ instruments : List Instrument,
      get_inst_file_variables instruments = extractVariableNames instruments) ∧
    get_inst_file_variables exampleInstDoc =
      (["Vin".toList], ["Iout".toList, "Vin".toList]) := by
  constructor
  · intro instruments
    unfold get_inst_file_variables extractVariableNames collect_vars
    rw [collect_vars_eq_flat]
    rfl
  · decide

/-! ## Project file attachment (`MainWindow`, src/frontend/main.py)

`add_existing_file` (main.py:469-495) classifies the chosen file by the
basename's extension; `add_project_file` (main.py:422-467) writes a fresh
default-content file and records its name. Only the project's two
filename lists (and whether the write/persist calls are reached) are the
data model; the dialogs and the actual disk writes are I/O glue. -/

/-- The two filename lists of `current_project_data`. -/
structure ProjectLists where
  eff_files : List (List Char)
  was_files : List (List Char)
deriving DecidableEq

/-- The error kind for an unrecognized extension. -/
inductive FileAddError where
  | unsupportedKind
deriving DecidableEq

/-- Result of `add_existing_file`: the updated lists, whether the
project-persist step was reached, and the reported error if any. -/
structure AttachResult where
  lists : ProjectLists
  persisted : Bool
  error : Option FileAddError
deriving DecidableEq

/-- `if fname not in xs: xs.append(fname)` (main.py:447-448, 458-459,
482-483, 485-486). -/
def appendIfAbsent (l : List (List Char)) (x : List Char) : List (List Char) :=
  if x ∈ l then l else l ++ [x]

/-- `MainWindow.add_existing_file` (main.py:480-495), from the basename
on: `.eff` names are appended to `eff_files` if absent, `.was` names to
`was_files` if absent, and then the project json is written; any other
extension warns `file_type_not_allowed` and returns before any mutation
or persist. -/
def add_existing_file (st : ProjectLists) (fname : List Char) : AttachResult :=
  if ".eff".toList.isSuffixOf fname then
    { lists := { st with eff_files := appendIfAbsent st.eff_files fname },
      persisted := true, error := none }
  else if ".was".toList.isSuffixOf fname then
    { lists := { st with was_files := appendIfAbsent st.was_files fname },
      persisted := true, error := none }
  else
    { lists := st, persisted := false, error := some .unsupportedKind }

/-- C6: a name ending in neither `.eff` nor `.was` fails with the
unsupported-kind error and leaves both lists unchanged and unpersisted;
a name ending in `.eff` (resp. `.was`) is appended to `eff_files`
(resp. `was_files`) only if not already present, and the project is then
persisted. -/
theorem add_existing_file_classifies (st : ProjectLists) (fname : List Char) :
    (".eff".toList.isSuffixOf fname ≠ true →
     ".was".toList.isSuffixOf fname ≠ true →
      add_existing_file st fname =
        ⟨st, false, some FileAddError.unsupportedKind⟩) ∧
    (".eff".toList.isSuffixOf fname = true →
      add_existing_file st fname =
        ⟨⟨appendIfAbsent st.eff_files fname, st.was_files⟩, true, none⟩ ∧
      (fname ∈ st.eff_files → appendIfAbsent st.eff_files fname = st.eff_files) ∧
      (fname ∉ st.eff_files →
        appendIfAbsent st.eff_files fname = st.eff_files ++ [fname])) ∧
    (".eff".toList.isSuffixOf fname ≠ true →
     ".was".toList.isSuffixOf fname = true →
      add_existing_file st fname =
        ⟨⟨st.eff_files, appendIfAbsent st.was_files fname⟩, true, none⟩ ∧
      (fname ∈ st.was_files → appendIfAbsent st.was_files fname = st.was_files) ∧
      (fname ∉ st.was_files →
        appendIfAbsent st.was_files fname = st.was_files ++ [fname])) := by
  refine ⟨?_, ?_, ?_⟩
  · intro h1 h2
    unfold add_existing_file
    rw [if_neg h1, if_neg h2]
  · intro h1
    refine ⟨?_, ?_, ?_⟩
    · unfold add_existing_file
      rw [if_pos h1]
    · intro hm; unfold appendIfAbsent; rw [if_pos hm]
    · intro hm; unfold appendIfAbsent; rw [if_neg hm]
  · intro h1 h2
    refine ⟨?_, ?_, ?_⟩
    · unfold add_existing_file
      rw [if_neg h1, if_pos h2]
    · intro hm; unfold appendIfAbsent; rw [if_pos hm]
    · intro hm; unfold appendIfAbsent; rw [if_neg hm]

/-- Witness for C6: a `.txt` name is rejected without touching the lists;
a fresh `.eff` name is appended and persisted. -/
theorem add_existing_file_classifies_witness :
    add_existing_file ⟨["x.eff".toList], []⟩ "a.txt".toList =
      ⟨⟨["x.eff".toList], []⟩, false, some FileAddError.unsupportedKind⟩ ∧
    add_existing_file ⟨["x.eff".toList], []⟩ "a.eff".toList =
      ⟨⟨["x.eff".toList, "a.eff".toList], []⟩, true, none⟩ := by
  constructor
  · exact (add_existing_file_classifies ⟨["x.eff".toList], []⟩
      "a.txt".toList).1 (by decide) (by decide)
  · have h := ((add_existing_file_classifies ⟨["x.eff".toList], []⟩
      "a.eff".toList).2.1 (by decide)).1
    rw [h]
    decide

/-- The list-and-write effect of `MainWindow.add_project_file`
(main.py:438-460) for a generated file of the chosen kind: the default
content is always written to disk (second component `true`), and the
name is appended to the matching list only when absent. -/
def add_project_file (st : ProjectLists) (isEff : Bool) (fname : List Char) :
    ProjectLists × Bool :=
  if isEff then
    ({ st with eff_files := appendIfAbsent st.eff_files fname }, true)
  else
    ({ st with was_files := appendIfAbsent st.was_files fname }, true)

/-- One attach operation: `add_project_file` (generated) or
`add_existing_file` (existing). -/
inductive AttachOp where
  | generated (isEff : Bool) (fname : List Char)
  | existing (fname : List Char)

/-- Effect of one attach operation on the project's file lists. -/
def applyAttach (st : ProjectLists) : AttachOp → ProjectLists
  | .generated isEff f => (add_project_file st isEff f).1
  | .existing f => (add_existing_file st f).lists

theorem appendIfAbsent_nodup {l : List (List Char)} {x : List Char}
    (h : l.Nodup) : (appendIfAbsent l x).Nodup := by
  unfold appendIfAbsent
  by_cases hm : x ∈ l
  · rw [if_pos hm]; exact h
  · rw [if_neg hm]
    rw [List.nodup_append]
    refine ⟨h, List.nodup_singleton x, ?_⟩
    intro a ha hax
    rw [List.mem_singleton] at hax
    exact hm (hax ▸ ha)

theorem appendIfAbsent_idem (l : List (List Char)) (x : List Char) :
    appendIfAbsent (appendIfAbsent l x) x = appendIfAbsent l x := by
  unfold appendIfAbsent
  by_cases hm : x ∈ l
  · rw [if_pos hm, if_pos hm]
  · rw [if_neg hm, if_pos (by simp)]

theorem applyAttach_nodup {st : ProjectLists} (op : AttachOp)
    (h1 : st.eff_files.Nodup) (h2 : st.was_files.Nodup) :
    (applyAttach st op).eff_files.Nodup ∧ (applyAttach st op).was_files.Nodup := by
  cases op with
  | generated isEff f =>
    cases isEff with
    | true => exact ⟨appendIfAbsent_nodup h1, h2⟩
    | false => exact ⟨h1, appendIfAbsent_nodup h2⟩
  | existing f =>
    simp only [applyAttach, add_existing_file]
    split_ifs with ha hb
    · exact ⟨appendIfAbsent_nodup h1, h2⟩
    · exact ⟨h1, appendIfAbsent_nodup h2⟩
    · exact ⟨h1, h2⟩

/-- C8: any sequence of attach operations keeps `eff_files` and
`was_files` duplicate-free; attaching the same filename twice is a no-op
on the lists; and `add_project_file` performs its file write on every
call, duplicate or not. -/
theorem attach_ops_lists_duplicate_free :
    (∀ (st : ProjectLists) (ops : List AttachOp),
      st.eff_files.Nodup → st.was_files.Nodup →
      (ops.foldl applyAttach st).eff_files.Nodup ∧
      (ops.foldl applyAttach st).was_files.Nodup) ∧
    (∀ (st : ProjectLists) (op : AttachOp),
      applyAttach (applyAttach st op) op = applyAttach st op) ∧
    (∀ (st : ProjectLists) (isEff : Bool) (fname : List Char),
      (add_project_file st isEff fname).2 = true) := by
  refine ⟨?_, ?_, ?_⟩
  · intro st ops
    induction ops generalizing st with
    | nil => intro h1 h2; exact ⟨h1, h2⟩
    | cons op rest ih =>
      intro h1 h2
      rw [List.foldl_cons]
      obtain ⟨g1, g2⟩ := applyAttach_nodup op h1 h2
      exact ih _ g1 g2
  · intro st op
    cases op with
    | generated isEff f =>
      cases isEff with
      | true => simp [applyAttach, add_project_file, appendIfAbsent_idem]
      | false => simp [applyAttach, add_project_file, appendIfAbsent_idem]
    | existing f =>
      simp only [applyAttach, add_existing_file]
      split_ifs with ha hb
      · simp [appendIfAbsent_idem]
      · simp [appendIfAbsent_idem]
      · rfl
  · intro st isEff fname
    cases isEff with
    | true => rfl
    | false => rfl

/-- Witness for C8: starting from duplicate-free lists, a concrete
sequence that attaches the same `.eff` name three ways keeps both lists
duplicate-free. -/
theorem attach_ops_lists_duplicate_free_witness :
    (([AttachOp.generated true "a.eff".toList,
       AttachOp.existing "a.eff".toList,
       AttachOp.generated true "a.eff".toList].foldl applyAttach
        ⟨["b.eff".toList], ["c.was".toList]⟩).eff_files.Nodup ∧
     ([AttachOp.generated true "a.eff".toList,
       AttachOp.existing "a.eff".toList,
       AttachOp.generated true "a.eff".toList].foldl applyAttach
        ⟨["b.eff".toList], ["c.was".toList]⟩).was_files.Nodup) :=
  attach_ops_lists_duplicate_free.1
    ⟨["b.eff".toList], ["c.was".toList]⟩
    [AttachOp.generated true "a.eff".toList,
     AttachOp.existing "a.eff".toList,
     AttachOp.generated true "a.eff".toList]
    (by decide) (by decide)

/-! ## `InstFileDialog.load_instrument_library` (src/frontend/main.py:1464-1489)

The file read and `json.load` are modelled by an `Option Json` input:
`none` is any read or parse failure. Inside the `try`, Python `in` on a
dict tests keys, on a list tests elements, on a string tests substrings
(no exception); on any other type it raises. Indexing or item-assigning
a non-dict raises. Every raised exception lands in the `except` branch,
which returns the empty four-key structure. -/

/-- A parsed JSON value; objects are ordered key/value lists with the
unique keys a Python dict guarantees. -/
inductive Json where
  | null
  | bool (b : Bool)
  | num (q : ℚ)
  | str (s : List Char)
  | arr (items : List Json)
  | obj (fields : List (List Char × Json))

/-- Python `d[k]` lookup on a dict (first binding of the key). -/
def lookupKey (fields : List (List Char × Json)) (k : List Char) : Option Json :=
  (fields.find? (fun p => p.1 = k)).map (·.2)

/-- Python `k in d` for a dict. -/
def hasKey (fields : List (List Char × Json)) (k : List Char) : Bool :=
  (lookupKey fields k).isSome

/-- The four expected class keys, in the loop's order (main.py:1478). -/
def expectedKeys : List (List Char) :=
  ["power_supplies_series".toList, "dataloggers_series".toList,
   "oscilloscopes_series".toList, "electronic_loads_series".toList]

/-- The dict effect of `for k in [...]: if k not in data: data[k] = []`
(main.py:1478-1480). -/
def ensureKeys (fields : List (List Char × Json)) : List (List Char × Json) :=
  expectedKeys.foldl
    (fun fs k => if hasKey fs k then fs else fs ++ [(k, Json.arr [])]) fields

/-- The empty library returned by the `except` branch (main.py:1484-1489). -/
def emptyLib : List (List Char × Json) :=
  [("power_supplies_series".toList, Json.arr []),
   ("dataloggers_series".toList, Json.arr []),
   ("oscilloscopes_series".toList, Json.arr []),
   ("electronic_loads_series".toList, Json.arr [])]

/-- Python `k == e` for a string `k` against an arbitrary value: true
exactly for the equal string (comparing a str with a value of any other
type is `False`, never an error). -/
def jsonIsStr (k : List Char) : Json → Bool
  | Json.str s => s = k
  | _ => false

/-- Python `k in data` for a list: element-wise `==`. -/
def arrContainsStr (k : List Char) (items : List Json) : Bool :=
  items.any (jsonIsStr k)

/-- Python `k in data` (main.py:1475, 1479): key membership for a dict,
element membership for a list, substring containment for a string;
`none` models the `TypeError` raised on every other type. -/
def pyIn (k : List Char) : Json → Option Bool
  | Json.obj fields => some (hasKey fields k)
  | Json.arr items => some (arrContainsStr k items)
  | Json.str s => some (hasSubstring k s)
  | _ => none

/-- Python `data[k]` for a string key (main.py:1476): dict lookup; `none`
models the `TypeError` raised when `data` is not a dict. It is only
evaluated after `k in data` succeeded, so on a dict the key is present
(the `getD` default is never reached). -/
def pyIndexStr (k : List Char) : Json → Option Json
  | Json.obj fields => some ((lookupKey fields k).getD Json.null)
  | _ => none

/-- The key-defaulting loop (main.py:1478-1480): on a dict, missing keys
are appended with `[]`. On a list or string the membership tests run
without error; when every key is found nothing is assigned and the
document flows through unchanged, otherwise the first assignment
`data[k] = []` raises a `TypeError` (`none`). On every other type the
first membership test raises (the key list is non-empty). -/
def defaultKeysLoop : Json → Option Json
  | Json.obj fields => some (Json.obj (ensureKeys fields))
  | Json.arr items =>
    if expectedKeys.all (fun k => arrContainsStr k items) then
      some (Json.arr items)
    else none
  | Json.str s =>
    if expectedKeys.all (fun k => hasSubstring k s) then some (Json.str s)
    else none
  | _ => none

/-- The body of the `try` block after parsing (main.py:1475-1481): unwrap
a present `instrument_library` key, then run the key-defaulting loop;
`none` is any raised exception. -/
def load_library_body (data : Json) : Option Json :=
  match pyIn "instrument_library".toList data with
  | none => none
  | some true =>
    match pyIndexStr "instrument_library".toList data with
    | none => none
    | some d => defaultKeysLoop d
  | some false => defaultKeysLoop data

/-- `InstFileDialog.load_instrument_library` (main.py:1464-1489): a
`none` input models a read or parse failure; any exception inside the
`try` lands in the `except` branch returning the four empty classes.
Note the function can return a non-dict: a list or string on which every
membership test of main.py:1475/1479 succeeds flows through unchanged. -/
def load_instrument_library (input : Option Json) : Json :=
  match input with
  | none => Json.obj emptyLib
  | some data =>
    match load_library_body data with
    | some r => r
    | none => Json.obj emptyLib

/-- Whether a returned document is a dict at all. -/
def jsonIsObj : Json → Bool
  | Json.obj _ => true
  | _ => false

/-- The class keys of a returned document, when it is a dict at all. -/
def jsonHasKey (j : Json) (k : List Char) : Bool :=
  match j with
  | Json.obj fields => hasKey fields k
  | _ => false

theorem hasKey_append_left {fields : List (List Char × Json)}
    {k : List Char} (h : hasKey fields k = true) (e : List Char × Json) :
    hasKey (fields ++ [e]) k = true := by
  unfold hasKey lookupKey at h ⊢
  rcases hf : fields.find? (fun p => p.1 = k) with _ | p
  · rw [hf] at h; simp at h
  · rw [List.find?_append, hf]; rfl

theorem hasKey_append_self (fields : List (List Char × Json))
    (k : List Char) (v : Json) : hasKey (fields ++ [(k, v)]) k = true := by
  unfold hasKey lookupKey
  rw [List.find?_append]
  rcases hf : fields.find? (fun p => p.1 = k) with _ | p
  · simp
  · rw [hf]; rfl

/-- One `ensureKeys` step never removes a key. -/
theorem hasKey_ensure_step {fields : List (List Char × Json)} {k : List Char}
    (h : hasKey fields k = true) (k' : List Char) :
    hasKey (if hasKey fields k' then fields
            else fields ++ [(k', Json.arr [])]) k = true := by
  by_cases h' : hasKey fields k' = true
  · rw [if_pos h']; exact h
  · rw [if_neg h']; exact hasKey_append_left h _

/-- After the defaulting loop, every key of the loop list is present. -/
theorem hasKey_ensureKeys_of_mem (ks : List (List Char)) :
    ∀ (fields : List (List Char × Json)) (k : List Char), k ∈ ks →
      hasKey (ks.foldl (fun fs k => if hasKey fs k then fs
               else fs ++ [(k, Json.arr [])]) fields) k = true := by
  have preserve : ∀ (ks : List (List Char)) (fields : List (List Char × Json))
      (k : List Char), hasKey fields k = true →
      hasKey (ks.foldl (fun fs k => if hasKey fs k then fs
               else fs ++ [(k, Json.arr [])]) fields) k = true := by
    intro ks
    induction ks with
    | nil => intro fields k h; exact h
    | cons k' rest ih =>
      intro fields k h
      rw [List.foldl_cons]
      exact ih _ k (hasKey_ensure_step h k')
  induction ks with
  | nil => intro fields k h; cases h
  | cons k' rest ih =>
    intro fields k hk
    rw [List.foldl_cons]
    rcases List.mem_cons.mp hk with rfl | hk'
    · apply preserve
      by_cases h' : hasKey fields k = true
      · rw [if_pos h']; exact h'
      · rw [if_neg h']; exact hasKey_append_self fields k (Json.arr [])
    · exact ih _ k hk'

theorem hasKey_emptyLib : ∀ k ∈ expectedKeys, hasKey emptyLib k = true := by
  decide

/-- On a dict the load does behave as documented: the unwrapped fields
are key-defaulted and all four class keys are present afterwards. -/
theorem load_library_obj_keys (fields : List (List Char × Json)) :
    defaultKeysLoop (Json.obj fields) = some (Json.obj (ensureKeys fields)) ∧
    ∀ k ∈ expectedKeys, hasKey (ensureKeys fields) k = true :=
  ⟨rfl, hasKey_ensureKeys_of_mem expectedKeys fields⟩

/-- A syntactically valid `instruments_lib.json` content: the JSON array
holding exactly the four expected key names as strings. -/
def fourKeyNamesArr : Json :=
  Json.arr [Json.str "power_supplies_series".toList,
            Json.str "dataloggers_series".toList,
            Json.str "oscilloscopes_series".toList,
            Json.str "electronic_loads_series".toList]

/-- C7: the claim fails on the code, and so does the function's own
docstring (main.py:1467, "Restituisce sempre un dict con tutte le chiavi
attese"). When `instruments_lib.json` parses to the array of the four
key names, `'instrument_library' in data` is `False`, every `k not in
data` membership test of the loop is `False`, no assignment runs, no
exception is raised, and the array is returned unchanged: it is not a
dict and carries none of the four class keys. The failure branch itself
behaves as claimed: a read or parse failure yields the four empty
classes. -/
theorem load_instrument_library_code_bug :
    load_instrument_library (some fourKeyNamesArr) = fourKeyNamesArr ∧
    jsonIsObj fourKeyNamesArr = false ∧
    expectedKeys.any (fun k => jsonHasKey fourKeyNamesArr k) = false ∧
    load_instrument_library none = Json.obj emptyLib ∧
    expectedKeys.all (fun k => jsonHasKey (Json.obj emptyLib) k) = true :=
  ⟨rfl, rfl, by decide, rfl, by decide⟩

/-! ## Channel persistence (src/frontend/main.py:1325-1428, 1603-1627)

`update_channels_widget` rebuilds the dialog's channel list from the
model's channel count, overlaying persisted entries by matching `index`;
`add_instrument_to_inst` persists only the widget entries whose `used`
flag is set (`ch_conf.get('used', True)`; every dict this dialog puts in
the widget carries `used`); `ChannelConfigDialog.get_channels` rebuilds
the enabled channels from the dialog widgets. -/

/-- The fresh all-disabled placeholder of `update_channels_widget`
(main.py:1366-1373). -/
def freshChannel (typeKey : List Char) (i : Nat) : Channel :=
  if typeKey = dlKey then
    { index := i, used := false, var := [], measured_variable := [],
      measure_type := "voltage".toList, attenuation := 1 }
  else
    { index := i, used := false, var := [], measured_variable := [],
      measure_type := [], attenuation := 1 }

/-- The channel list `update_channels_widget` (main.py:1362-1383) puts in
the widget: for each `ch_idx` in `range(n_channels)`, the persisted
channel with matching `index` if any, else a fresh disabled placeholder. -/
def update_channels_widget (typeKey : List Char) (n_channels : Nat)
    (used_channels : List Channel) : List Channel :=
  (List.range n_channels).map (fun i =>
    match used_channels.find? (fun c => c.index = i) with
    | some c => c
    | none => freshChannel typeKey i)

/-- The channel collection of `add_instrument_to_inst` (main.py:1396-1401):
keep exactly the widget entries whose `used` flag is set. -/
def collect_used_channels (widget : List Channel) : List Channel :=
  widget.filter (·.used)

/-- The state of one channel group in `ChannelConfigDialog`
(main.py:1586-1591): the checkbox, the variable text, the attenuation
text and the measure-type combo. -/
structure ChannelWidgetState where
  used : Bool
  varText : List Char
  attText : List Char
  measureType : List Char

/-- `ChannelConfigDialog.get_channels` (main.py:1603-1627): for each
enabled widget, rebuild a channel dict with `index` equal to the widget's
position, `used = True`, the stripped variable text under the
class-appropriate key, and the attenuation parsed as a float with
comma-to-dot normalization, defaulting to 1.0 on failure. -/
def get_channels (typeKey : List Char) (widgets : List ChannelWidgetState) :
    List Channel :=
  (widgets.enum.filterMap (fun p =>
    if p.2.used then
      some { index := p.1, used := true,
             var := if typeKey = dlKey then [] else pyStrip p.2.varText,
             measured_variable :=
               if typeKey = dlKey then pyStrip p.2.varText else [],
             measure_type := if typeKey = dlKey then p.2.measureType else [],
             attenuation :=
               match pyFloat (commaToDot p.2.attText) with
               | some a => a
               | none => 1 }
    else none))

/-- Each widget entry rebuilt by `update_channels_widget` carries the
index of its position: the overlay only accepts a persisted channel whose
`index` matches, and placeholders are created with their position. -/
theorem update_channels_widget_indexes (typeKey : List Char) (n : Nat)
    (used_channels : List Channel) :
    (update_channels_widget typeKey n used_channels).map (·.index) =
      List.range n := by
  unfold update_channels_widget
  rw [List.map_map]
  have h : ∀ i ∈ List.range n,
      ((fun c => c.index) ∘ fun i =>
        match used_channels.find? (fun c => c.index = i) with
        | some c => c
        | none => freshChannel typeKey i) i = id i := by
    intro i _
    simp only [Function.comp_apply, id_eq]
    rcases hf : used_channels.find? (fun c => c.index = i) with _ | c
    · rw [hf]
      unfold freshChannel
      by_cases ht : typeKey = dlKey
      · rw [if_pos ht]
      · rw [if_neg ht]
    · rw [hf]
      have := List.find?_some hf
      simpa using this
  rw [List.map_congr_left h, List.map_id]

/-- `filterMap` of a guarded `some` is `map` after `filter`. -/
theorem filterMap_guard {α β : Type} (c : α → Bool) (g : α → β)
    (l : List α) :
    l.filterMap (fun a => if c a then some (g a) else none) =
      (l.filter c).map g := by
  induction l with
  | nil => rfl
  | cons a rest ih =>
    by_cases ha : c a
    · rw [List.filterMap_cons, List.filter_cons, if_pos (by simpa using ha),
        if_pos ha, List.map_cons, ih]
    · rw [List.filterMap_cons, List.filter_cons, if_neg ha]
      rw [if_neg (by simpa using ha)]
      exact ih

/-- The indices `get_channels` assigns are the positions of the enabled
widgets: a sublist of `range widgets.length`. -/
theorem get_channels_indexes (typeKey : List Char)
    (widgets : List ChannelWidgetState) :
    List.Sublist ((get_channels typeKey widgets).map (·.index))
      (List.range widgets.length) := by
  unfold get_channels
  rw [List.map_filterMap]
  have h : ∀ p : Nat × ChannelWidgetState,
      ((if p.2.used then
        some { index := p.1, used := true,
               var := if typeKey = dlKey then [] else pyStrip p.2.varText,
               measured_variable :=
                 if typeKey = dlKey then pyStrip p.2.varText else [],
               measure_type := if typeKey = dlKey then p.2.measureType else [],
               attenuation :=
                 match pyFloat (commaToDot p.2.attText) with
                 | some a => a
                 | none => 1 } else none : Option Channel).map (·.index)) =
      (if (fun q : Nat × ChannelWidgetState => q.2.used) p then
        some ((fun q : Nat × ChannelWidgetState => q.1) p) else none) := by
    intro p
    by_cases hp : p.2.used
    · rw [if_pos hp, if_pos hp]; rfl
    · rw [if_neg hp, if_neg hp]; rfl
  rw [List.filterMap_congr (fun p _ => h p)]
  rw [filterMap_guard]
  have hsub : List.Sublist
      ((widgets.enum.filter (fun q => q.2.used)).map (fun q => q.1))
      (widgets.enum.map Prod.fst) :=
    (List.filter_sublist _).map _
  rw [List.enum_map_fst] at hsub
  exact hsub

/-- C5: channels persisted by `add_instrument_to_inst`'s collection over
the rebuilt widget all have `used = true`, with indices unique and inside
`[0, n_channels)`; channels produced by
`ChannelConfigDialog.get_channels` all have `used = true`, with indices
unique and inside `[0, channel_count)` whenever the dialog shows at most
`channel_count` channels. Disabled placeholders are never persisted. -/
theorem persisted_channels_invariant :
    (∀ (typeKey : List Char) (n : Nat) (used_channels : List Channel),
      (∀ ch ∈ collect_used_channels
          (update_channels_widget typeKey n used_channels), ch.used = true) ∧
      (∀ ch ∈ collect_used_channels
          (update_channels_widget typeKey n used_channels), ch.index < n) ∧
      ((collect_used_channels
          (update_channels_widget typeKey n used_channels)).map
        (·.index)).Nodup) ∧
    (∀ (typeKey : List Char) (widgets : List ChannelWidgetState)
        (channel_count : Nat), widgets.length ≤ channel_count →
      (∀ ch ∈ get_channels typeKey widgets, ch.used = true) ∧
      (∀ ch ∈ get_channels typeKey widgets, ch.index < channel_count) ∧
      ((get_channels typeKey widgets).map (·.index)).Nodup) := by
  constructor
  · intro typeKey n used_channels
    have hsub : List.Sublist
        ((collect_used_channels
          (update_channels_widget typeKey n used_channels)).map (·.index))
        ((update_channels_widget typeKey n used_channels).map (·.index)) :=
      (List.filter_sublist _).map _
    rw [update_channels_widget_indexes] at hsub
    refine ⟨?_, ?_, ?_⟩
    · intro ch hch
      unfold collect_used_channels at hch
      simpa using (List.mem_filter.mp hch).2
    · intro ch hch
      have : ch.index ∈ List.range n :=
        hsub.mem (List.mem_map_of_mem (·.index) hch)
      simpa using this
    · exact (List.nodup_range n).sublist hsub
  · intro typeKey widgets channel_count hlen
    have hsub := get_channels_indexes typeKey widgets
    refine ⟨?_, ?_, ?_⟩
    · intro ch hch
      unfold get_channels at hch
      obtain ⟨p, _, hp⟩ := List.mem_filterMap.mp hch
      by_cases hu : p.2.used
      · rw [if_pos hu] at hp
        cases hp
        rfl
      · rw [if_neg hu] at hp
        cases hp
    · intro ch hch
      have : ch.index ∈ List.range widgets.length :=
        hsub.mem (List.mem_map_of_mem (·.index) hch)
      rw [List.mem_range] at this
      omega
    · exact (List.nodup_range widgets.length).sublist hsub

/-- Witness for C5: two widgets, the first disabled, the second enabled,
with `channel_count = 3`: the single persisted channel is used, indexed 1. -/
theorem persisted_channels_invariant_witness :
    (∀ ch ∈ get_channels psKey
        [⟨false, "Vin".toList, "1".toList, []⟩,
         ⟨true, "Vout".toList, "2".toList, []⟩], ch.used = true) ∧
    (∀ ch ∈ get_channels psKey
        [⟨false, "Vin".toList, "1".toList, []⟩,
         ⟨true, "Vout".toList, "2".toList, []⟩], ch.index < 3) ∧
    ((get_channels psKey
        [⟨false, "Vin".toList, "1".toList, []⟩,
         ⟨true, "Vout".toList, "2".toList, []⟩]).map (·.index)).Nodup :=
  persisted_channels_invariant.2 psKey
    [⟨false, "Vin".toList, "1".toList, []⟩,
     ⟨true, "Vout".toList, "2".toList, []⟩] 3 (by decide)

/-! ## `WasFileDialog.apply_params_to_json` (src/frontend/main.py:1096-1109) -/

/-- The oscilloscope per-division settings dict. -/
structure WasSettings where
  time_per_div : ℚ
  volt_per_div : ℚ
deriving DecidableEq

/-- `WasFileDialog.apply_params_to_json` (main.py:1096-1109): parse the
time string with `parse_time` and the volt string with
`float(text.replace(',', '.'))` (`None` on failure); only when both
succeed are the two settings overwritten. -/
def was_apply_params_to_json (settings : WasSettings)
    (tdivText vdivText : List Char) : WasSettings :=
  match parse_time tdivText, pyFloat (commaToDot vdivText) with
  | some tdiv, some vdiv => { time_per_div := tdiv, volt_per_div := vdiv }
  | _, _ => settings

/-- C10: the settings update is atomic: both `time_per_div` and
`volt_per_div` are overwritten when both input strings parse, and both
keep their previous values when either parse fails. -/
theorem was_apply_params_atomic (settings : WasSettings)
    (tdivText vdivText : List Char) :
    (∀ a b, parse_time tdivText = some a →
      pyFloat (commaToDot vdivText) = some b →
      was_apply_params_to_json settings tdivText vdivText = ⟨a, b⟩) ∧
    (parse_time tdivText = none ∨ pyFloat (commaToDot vdivText) = none →
      was_apply_params_to_json settings tdivText vdivText = settings) := by
  constructor
  · intro a b ha hb
    unfold was_apply_params_to_json
    rw [ha, hb]
  · intro h
    unfold was_apply_params_to_json
    rcases h with h | h
    · rw [h]
    · rw [h]
      rcases parse_time tdivText with _ | a <;> rfl

unseal Rat.mul Rat.inv Rat.add Rat.sub in
/-- Witness for C10: a failing volt string leaves the settings intact,
and a parsable pair `("1k", "2.5")` overwrites both. -/
theorem was_apply_params_atomic_witness :
    was_apply_params_to_json ⟨7, 8⟩ "1k".toList "x".toList = ⟨7, 8⟩ ∧
    was_apply_params_to_json ⟨7, 8⟩ "1k".toList "2,5".toList =
      ⟨1000, 5 / 2⟩ := by
  constructor
  · exact (was_apply_params_atomic ⟨7, 8⟩ "1k".toList "x".toList).2
      (Or.inr (by decide))
  · exact (was_apply_params_atomic ⟨7, 8⟩ "1k".toList "2,5".toList).1
      1000 (5 / 2) (by decide) (by decide)

/-! ## Model of Python `str(...)` on floats

`populate_params_from_json` shows stored floats with `str(v)` and
`apply_params_to_json` re-parses the text with `float(...)`; Python
guarantees `float(str(v)) == v`. A Python float is a dyadic rational, so
its value has a finite decimal expansion; `str` is modelled as printing
that exact expansion (`pyStrQ`), for which the same round-trip law is
proved (`pyFloat_pyStrQ`). -/

/-- The character of a digit. -/
def digitChar (d : Nat) : Char := Char.ofNat (48 + d)

/-- Digits of `n`, most significant first (`fuel`-bounded division). -/
def natDigitsAux : Nat → Nat → List Char
  | 0, _ => []
  | fuel + 1, n =>
    if n = 0 then [] else natDigitsAux fuel (n / 10) ++ [digitChar (n % 10)]

/-- Decimal digit string of a natural number. -/
def natDigits (n : Nat) : List Char :=
  if n = 0 then ['0'] else natDigitsAux n n

theorem digitVal_digitChar {d : Nat} (h : d < 10) :
    digitVal (digitChar d) = d := by
  interval_cases d <;> decide

theorem isDigit_digitChar {d : Nat} (h : d < 10) :
    (digitChar d).isDigit = true := by
  interval_cases d <;> decide

theorem digitsToNat_append_singleton (l : List Char) (c : Char) :
    digitsToNat (l ++ [c]) = 10 * digitsToNat l + digitVal c := by
  simp [digitsToNat, List.foldl_append]

theorem natDigitsAux_spec :
    ∀ fuel n, n ≤ fuel → digitsToNat (natDigitsAux fuel n) = n := by
  intro fuel
  induction fuel with
  | zero => intro n h; interval_cases n; rfl
  | succ fuel ih =>
    intro n h
    unfold natDigitsAux
    by_cases hn : n = 0
    · rw [if_pos hn, hn]; rfl
    · rw [if_neg hn, digitsToNat_append_singleton]
      have hdiv : n / 10 ≤ fuel := by
        have := Nat.div_lt_self (Nat.pos_of_ne_zero hn) (by norm_num : 1 < 10)
        omega
      rw [ih (n / 10) hdiv, digitVal_digitChar (Nat.mod_lt n (by norm_num))]
      omega

theorem natDigitsAux_digits :
    ∀ fuel n, ∀ c ∈ natDigitsAux fuel n, c.isDigit = true := by
  intro fuel
  induction fuel with
  | zero => intro n c hc; cases hc
  | succ fuel ih =>
    intro n c hc
    unfold natDigitsAux at hc
    by_cases hn : n = 0
    · rw [if_pos hn] at hc; cases hc
    · rw [if_neg hn] at hc
      rcases List.mem_append.mp hc with hc | hc
      · exact ih (n / 10) c hc
      · rw [List.mem_singleton] at hc
        subst hc
        exact isDigit_digitChar (Nat.mod_lt n (by norm_num))

theorem digitsToNat_natDigits (n : Nat) : digitsToNat (natDigits n) = n := by
  unfold natDigits
  by_cases hn : n = 0
  · rw [if_pos hn, hn]; rfl
  · rw [if_neg hn]; exact natDigitsAux_spec n n le_rfl

theorem natDigits_digits (n : Nat) : ∀ c ∈ natDigits n, c.isDigit = true := by
  unfold natDigits
  by_cases hn : n = 0
  · rw [if_pos hn]; intro c hc; rw [List.mem_singleton] at hc; subst hc; rfl
  · rw [if_neg hn]; exact natDigitsAux_digits n n

/-- Left-pad with zeros to at least `k` characters. -/
def padLeftZeros (k : Nat) (l : List Char) : List Char :=
  List.replicate (k - l.length) '0' ++ l

theorem digitsToNat_replicate_zero (m : Nat) (l : List Char) :
    digitsToNat (List.replicate m '0' ++ l) = digitsToNat l := by
  induction m with
  | zero => rfl
  | succ m ih => simpa [List.replicate_succ, digitsToNat] using ih

theorem digitsToNat_padLeftZeros (k : Nat) (l : List Char) :
    digitsToNat (padLeftZeros k l) = digitsToNat l :=
  digitsToNat_replicate_zero _ l

theorem padLeftZeros_digits {l : List Char} (hl : ∀ c ∈ l, c.isDigit = true)
    (k : Nat) : ∀ c ∈ padLeftZeros k l, c.isDigit = true := by
  intro c hc
  rcases List.mem_append.mp hc with hc | hc
  · rw [List.eq_of_mem_replicate hc]; rfl
  · exact hl c hc

theorem padLeftZeros_length (k : Nat) (l : List Char) :
    (padLeftZeros k l).length = max k l.length := by
  simp [padLeftZeros]
  omega

theorem takeWhile_append_of {p : Char → Bool} {l : List Char} (x : Char)
    (r : List Char) (hl : ∀ c ∈ l, p c = true) (hx : p x = false) :
    (l ++ x :: r).takeWhile p = l := by
  induction l with
  | nil => simp [List.takeWhile_cons, hx]
  | cons a rest ih =>
    rw [List.cons_append, List.takeWhile_cons,
      if_pos (hl a (List.mem_cons_self a rest))]
    rw [ih (fun c hc => hl c (List.mem_cons_of_mem a hc))]

theorem dropWhile_append_of {p : Char → Bool} {l : List Char} (x : Char)
    (r : List Char) (hl : ∀ c ∈ l, p c = true) (hx : p x = false) :
    (l ++ x :: r).dropWhile p = x :: r := by
  induction l with
  | nil => simp [List.dropWhile_cons, hx]
  | cons a rest ih =>
    rw [List.cons_append, List.dropWhile_cons,
      if_pos (hl a (List.mem_cons_self a rest))]
    exact ih (fun c hc => hl c (List.mem_cons_of_mem a hc))

theorem takeWhile_eq_self_of {p : Char → Bool} {l : List Char}
    (hl : ∀ c ∈ l, p c = true) : l.takeWhile p = l := by
  induction l with
  | nil => rfl
  | cons a rest ih =>
    rw [List.takeWhile_cons, if_pos (hl a (List.mem_cons_self a rest))]
    rw [ih (fun c hc => hl c (List.mem_cons_of_mem a hc))]

theorem dropWhile_eq_nil_of {p : Char → Bool} {l : List Char}
    (hl : ∀ c ∈ l, p c = true) : l.dropWhile p = [] := by
  induction l with
  | nil => rfl
  | cons a rest ih =>
    rw [List.dropWhile_cons, if_pos (hl a (List.mem_cons_self a rest))]
    exact ih (fun c hc => hl c (List.mem_cons_of_mem a hc))

theorem dropWhile_eq_self_of_none {p : Char → Bool} {l : List Char}
    (hl : ∀ c ∈ l, p c = false) : l.dropWhile p = l := by
  cases l with
  | nil => rfl
  | cons a rest =>
    rw [List.dropWhile_cons, if_neg (by rw [hl a (List.mem_cons_self a rest)]; simp)]

/-- A string with no whitespace anywhere strips to itself. -/
theorem pyStrip_eq_self {l : List Char}
    (h : ∀ c ∈ l, c.isWhitespace = false) : pyStrip l = l := by
  unfold pyStrip
  rw [dropWhile_eq_self_of_none h]
  rw [dropWhile_eq_self_of_none (fun c hc => h c (List.mem_reverse.mp hc))]
  exact List.reverse_reverse l

theorem isDigit_not_ws {c : Char} (h : c.isDigit = true) :
    c.isWhitespace = false := by
  by_contra hw
  rw [Bool.not_eq_false] at hw
  simp only [Char.isWhitespace, Bool.or_eq_true, beq_iff_eq,
    decide_eq_true_eq] at hw
  rcases hw with ((rfl | rfl) | rfl) | rfl <;> simp [Char.isDigit] at h

theorem isDigit_ne_of {c : Char} (h : c.isDigit = true) :
    c ≠ '-' ∧ c ≠ '+' ∧ c ≠ '.' ∧ c ≠ ',' := by
  refine ⟨?_, ?_, ?_, ?_⟩ <;> rintro rfl <;> simp [Char.isDigit] at h

/-- Multiplicity of `p` in `n` (fuel-bounded). -/
def padicValFuel (p : Nat) : Nat → Nat → Nat
  | 0, _ => 0
  | fuel + 1, n =>
    if n % p = 0 ∧ n ≠ 0 then padicValFuel p fuel (n / p) + 1 else 0

/-- Multiplicity of `p` in `n`. -/
def nuFactor (p n : Nat) : Nat := padicValFuel p n n

/-- Number of decimal digits needed after the point for `q`. -/
def decExp (q : ℚ) : Nat := max (nuFactor 2 q.den) (nuFactor 5 q.den)

/-- `q` has a finite decimal expansion: its denominator is `2^a * 5^b`.
Every value a Python float can hold satisfies this (denominators are
powers of two). -/
def isDecimalRat (q : ℚ) : Bool :=
  q.den = 2 ^ nuFactor 2 q.den * 5 ^ nuFactor 5 q.den

/-- Digits of the exact decimal expansion of `|q|`: integer digits,
point, fractional digits (`"x.0"` for integers, matching Python). -/
def pyStrQUnsigned (q : ℚ) : List Char :=
  let k := decExp q
  let n := q.num.natAbs * 10 ^ k / q.den
  let ds := padLeftZeros (k + 1) (natDigits n)
  ds.take (ds.length - k) ++
    '.' :: (if k = 0 then ['0'] else ds.drop (ds.length - k))

/-- Model of Python `str` on a float value: the exact decimal expansion
with sign. -/
def pyStrQ (q : ℚ) : List Char :=
  (if q.num < 0 then ['-'] else []) ++ pyStrQUnsigned q

theorem den_dvd_pow10 {q : ℚ} (h : isDecimalRat q = true) :
    q.den ∣ 10 ^ decExp q := by
  unfold isDecimalRat at h
  rw [decide_eq_true_eq] at h
  unfold decExp
  have h10 : (10 : ℕ) ^ max (nuFactor 2 q.den) (nuFactor 5 q.den) =
      2 ^ max (nuFactor 2 q.den) (nuFactor 5 q.den) *
      5 ^ max (nuFactor 2 q.den) (nuFactor 5 q.den) := by
    rw [← Nat.mul_pow]
  rw [h10]
  nth_rewrite 1 [h]
  exact Nat.mul_dvd_mul (pow_dvd_pow 2 (le_max_left _ _))
    (pow_dvd_pow 5 (le_max_right _ _))

theorem pyStrQ_val {q : ℚ} (h : isDecimalRat q = true) :
    ((q.num.natAbs * 10 ^ decExp q / q.den : ℕ) : ℚ) / 10 ^ decExp q =
      (q.num.natAbs : ℚ) / (q.den : ℚ) := by
  have hdvd : q.den ∣ q.num.natAbs * 10 ^ decExp q :=
    (den_dvd_pow10 h).mul_left _
  have hq : (q.num.natAbs * 10 ^ decExp q / q.den) * q.den =
      q.num.natAbs * 10 ^ decExp q := Nat.div_mul_cancel hdvd
  have hden : (q.den : ℚ) ≠ 0 := by
    exact_mod_cast q.den_nz
  have h10 : ((10 : ℚ)) ^ decExp q ≠ 0 := by positivity
  rw [div_eq_div_iff h10 hden]
  exact_mod_cast congrArg (fun m : ℕ => (m : ℚ)) hq

theorem pyFloatCore_frac {ip fp : List Char}
    (hip : ∀ c ∈ ip, Char.isDigit c = true)
    (hfp : ∀ c ∈ fp, Char.isDigit c = true) (hne : ip ≠ []) :
    pyFloatCore (ip ++ '.' :: fp) =
      some ((digitsToNat (ip ++ fp) : ℚ) / 10 ^ fp.length) := by
  have h1 : (ip ++ '.' :: fp).takeWhile Char.isDigit = ip :=
    takeWhile_append_of '.' fp hip (by decide)
  have h2 : (ip ++ '.' :: fp).dropWhile Char.isDigit = '.' :: fp :=
    dropWhile_append_of '.' fp hip (by decide)
  simp only [pyFloatCore, h1, h2]
  rw [takeWhile_eq_self_of hfp, dropWhile_eq_nil_of hfp]
  rw [if_neg (by simp [List.length_eq_zero, hne])]
  simp only [parseExp, Option.map_some']
  rw [zpow_zero, mul_one]

/-- The structural facts about `pyStrQUnsigned q`: its integer and
fractional digit blocks, and their numeric value. -/
theorem pyStrQUnsigned_spec (q : ℚ) (h : isDecimalRat q = true) :
    ∃ ip fp : List Char,
      pyStrQUnsigned q = ip ++ '.' :: fp ∧ ip ≠ [] ∧
      (∀ c ∈ ip, c.isDigit = true) ∧ (∀ c ∈ fp, c.isDigit = true) ∧
      (digitsToNat (ip ++ fp) : ℚ) / 10 ^ fp.length =
        (q.num.natAbs : ℚ) / (q.den : ℚ) := by
  have hds_digits : ∀ c ∈ padLeftZeros (decExp q + 1)
      (natDigits (q.num.natAbs * 10 ^ decExp q / q.den)), c.isDigit = true :=
    padLeftZeros_digits (natDigits_digits _) _
  have hds_len : decExp q + 1 ≤ (padLeftZeros (decExp q + 1)
      (natDigits (q.num.natAbs * 10 ^ decExp q / q.den))).length := by
    rw [padLeftZeros_length]
    omega
  set k := decExp q with hk
  set n := q.num.natAbs * 10 ^ k / q.den with hn
  set ds := padLeftZeros (k + 1) (natDigits n) with hds
  have hds_val : digitsToNat ds = n := by
    rw [hds, digitsToNat_padLeftZeros, digitsToNat_natDigits]
  refine ⟨ds.take (ds.length - k),
    if k = 0 then ['0'] else ds.drop (ds.length - k), rfl, ?_, ?_, ?_, ?_⟩
  · have : (ds.take (ds.length - k)).length = ds.length - k := by
      rw [List.length_take]
      omega
    intro hnil
    rw [hnil] at this
    simp at this
    omega
  · intro c hc
    exact hds_digits c (List.take_subset _ _ hc)
  · intro c hc
    by_cases h0 : k = 0
    · rw [if_pos h0] at hc
      rw [List.mem_singleton] at hc
      subst hc; rfl
    · rw [if_neg h0] at hc
      exact hds_digits c (List.drop_subset _ _ hc)
  · have hval := pyStrQ_val h
    rw [← hk, ← hn] at hval
    by_cases h0 : k = 0
    · rw [if_pos h0]
      have htake : ds.take (ds.length - k) = ds := by
        rw [h0, Nat.sub_zero, List.take_length]
      rw [htake, digitsToNat_append_singleton, hds_val]
      have : digitVal '0' = 0 := rfl
      rw [this]
      rw [h0] at hval
      rw [pow_zero, div_one] at hval
      rw [← hval]
      push_cast
      field_simp
    · rw [if_neg h0]
      rw [List.take_append_drop, hds_val]
      have hlen : (ds.drop (ds.length - k)).length = k := by
        rw [List.length_drop]
        omega
      rw [hlen]
      exact hval

theorem pyFloatSigned_cons_digit {c : Char} (hc : c.isDigit = true)
    (rest : List Char) :
    pyFloatSigned (c :: rest) = pyFloatCore (c :: rest) := by
  unfold pyFloatSigned
  split
  · rename_i heq
    injection heq with h1 h2
    subst h1
    simp [Char.isDigit] at hc
  · rename_i heq
    injection heq with h1 h2
    subst h1
    simp [Char.isDigit] at hc
  · rfl

/-- Round trip of the decimal printer through Python `float` parsing. -/
theorem pyFloat_pyStrQ (q : ℚ) (h : isDecimalRat q = true) :
    pyFloat (pyStrQ q) = some q := by
  obtain ⟨ip, fp, hu, hne, hip, hfp, hval⟩ := pyStrQUnsigned_spec q h
  have hcore : pyFloatCore (ip ++ '.' :: fp) =
      some ((q.num.natAbs : ℚ) / (q.den : ℚ)) := by
    rw [pyFloatCore_frac hip hfp hne, hval]
  have hden : (q.den : ℚ) ≠ 0 := by exact_mod_cast q.den_nz
  have hnows : ∀ c ∈ pyStrQ q, c.isWhitespace = false := by
    intro c hc
    unfold pyStrQ at hc
    rw [hu] at hc
    rcases List.mem_append.mp hc with hc | hc
    · by_cases hneg : q.num < 0
      · rw [if_pos hneg, List.mem_singleton] at hc
        subst hc; rfl
      · rw [if_neg hneg] at hc; cases hc
    · rcases List.mem_append.mp hc with hc | hc
      · exact isDigit_not_ws (hip c hc)
      · rcases List.mem_cons.mp hc with rfl | hc
        · rfl
        · exact isDigit_not_ws (hfp c hc)
  rw [pyFloat, pyStrip_eq_self hnows]
  by_cases hneg : q.num < 0
  · have hshape : pyStrQ q = '-' :: (ip ++ '.' :: fp) := by
      unfold pyStrQ
      rw [if_pos hneg, hu]
      rfl
    rw [hshape]
    show (pyFloatCore (ip ++ '.' :: fp)).map (fun q => -q) = some q
    rw [hcore]
    have habs : ((q.num.natAbs : ℚ)) = -(q.num : ℚ) := by
      rw [Int.cast_natAbs]
      exact_mod_cast abs_of_nonpos (le_of_lt hneg)
    simp only [Option.map_some']
    rw [habs]
    rw [neg_div, neg_neg]
    exact congrArg some (Rat.num_div_den q)
  · have hshape : pyStrQ q = ip ++ '.' :: fp := by
      unfold pyStrQ
      rw [if_neg hneg, hu]
      rfl
    rw [hshape]
    obtain ⟨c, rest, rfl⟩ := List.exists_cons_of_ne_nil hne
    rw [List.cons_append]
    rw [pyFloatSigned_cons_digit (hip c (List.mem_cons_self c rest)) _]
    rw [← List.cons_append]
    rw [hcore]
    have habs : ((q.num.natAbs : ℚ)) = (q.num : ℚ) := by
      rw [Int.cast_natAbs]
      exact_mod_cast abs_of_nonneg (not_lt.mp hneg)
    rw [habs]
    exact congrArg some (Rat.num_div_den q)

theorem pyStrQ_no_ws {q : ℚ} (h : isDecimalRat q = true) :
    ∀ c ∈ pyStrQ q, c.isWhitespace = false := by
  obtain ⟨ip, fp, hu, hne, hip, hfp, hval⟩ := pyStrQUnsigned_spec q h
  intro c hc
  unfold pyStrQ at hc
  rw [hu] at hc
  rcases List.mem_append.mp hc with hc | hc
  · by_cases hneg : q.num < 0
    · rw [if_pos hneg, List.mem_singleton] at hc
      subst hc; rfl
    · rw [if_neg hneg] at hc; cases hc
  · rcases List.mem_append.mp hc with hc | hc
    · exact isDigit_not_ws (hip c hc)
    · rcases List.mem_cons.mp hc with rfl | hc
      · rfl
      · exact isDigit_not_ws (hfp c hc)

theorem pyStrQ_no_comma {q : ℚ} (h : isDecimalRat q = true) :
    ∀ c ∈ pyStrQ q, c ≠ ',' := by
  obtain ⟨ip, fp, hu, hne, hip, hfp, hval⟩ := pyStrQUnsigned_spec q h
  intro c hc
  unfold pyStrQ at hc
  rw [hu] at hc
  rcases List.mem_append.mp hc with hc | hc
  · by_cases hneg : q.num < 0
    · rw [if_pos hneg, List.mem_singleton] at hc
      subst hc; decide
    · rw [if_neg hneg] at hc; cases hc
  · rcases List.mem_append.mp hc with hc | hc
    · exact (isDigit_ne_of (hip c hc)).2.2.2
    · rcases List.mem_cons.mp hc with rfl | hc
      · decide
      · exact (isDigit_ne_of (hfp c hc)).2.2.2

theorem pyStrQ_ne_nil {q : ℚ} (h : isDecimalRat q = true) :
    pyStrQ q ≠ [] := by
  obtain ⟨ip, fp, hu, hne, hip, hfp, hval⟩ := pyStrQUnsigned_spec q h
  unfold pyStrQ
  rw [hu]
  intro hcon
  rcases List.append_eq_nil.mp hcon with ⟨h1, h2⟩
  rcases List.append_eq_nil.mp h2 with ⟨h3, h4⟩
  cases h4

/-- Python `s.split(',')` on character lists. -/
def splitComma : List Char → List (List Char)
  | [] => [[]]
  | c :: rest =>
    if c = ',' then [] :: splitComma rest
    else
      match splitComma rest with
      | [] => [[c]]
      | t :: ts => (c :: t) :: ts

/-- Python `','.join(parts)`. -/
def joinComma : List (List Char) → List Char
  | [] => []
  | [p] => p
  | p :: ps => p ++ ',' :: joinComma ps

theorem splitComma_ne_nil (s : List Char) : splitComma s ≠ [] := by
  induction s with
  | nil => simp [splitComma]
  | cons c rest ih =>
    unfold splitComma
    by_cases hc : c = ','
    · rw [if_pos hc]; simp
    · rw [if_neg hc]
      rcases h : splitComma rest with _ | ⟨t, ts⟩
      · simp
      · simp

theorem splitComma_no_comma {p : List Char} (hp : ∀ c ∈ p, c ≠ ',') :
    splitComma p = [p] := by
  induction p with
  | nil => rfl
  | cons c rest ih =>
    unfold splitComma
    rw [if_neg (hp c (List.mem_cons_self c rest))]
    rw [ih (fun x hx => hp x (List.mem_cons_of_mem c hx))]

theorem splitComma_cons_ne {c : Char} (hc : c ≠ ',') (l : List Char) :
    splitComma (c :: l) =
      match splitComma l with
      | [] => [[c]]
      | t :: ts => (c :: t) :: ts := by
  show (if c = ',' then [] :: splitComma l
    else match splitComma l with
      | [] => [[c]]
      | t :: ts => (c :: t) :: ts) =
    match splitComma l with
    | [] => [[c]]
    | t :: ts => (c :: t) :: ts
  rw [if_neg hc]

theorem splitComma_append {p : List Char} (rest : List Char)
    (hp : ∀ c ∈ p, c ≠ ',') :
    splitComma (p ++ ',' :: rest) = p :: splitComma rest := by
  induction p with
  | nil => simp [splitComma]
  | cons c cs ih =>
    rw [List.cons_append,
      splitComma_cons_ne (hp c (List.mem_cons_self c cs)) _,
      ih (fun x hx => hp x (List.mem_cons_of_mem c hx))]

/-- `split(',')` undoes `','.join` when no part contains a comma. -/
theorem splitComma_joinComma (parts : List (List Char))
    (hparts : ∀ p ∈ parts, ∀ c ∈ p, c ≠ ',') (hne : parts ≠ []) :
    splitComma (joinComma parts) = parts := by
  induction parts with
  | nil => exact absurd rfl hne
  | cons p ps ih =>
    cases ps with
    | nil =>
      show splitComma (joinComma [p]) = [p]
      unfold joinComma
      exact splitComma_no_comma (hparts p (List.mem_cons_self p []))
    | cons p2 ps2 =>
      show splitComma (p ++ ',' :: joinComma (p2 :: ps2)) = p :: p2 :: ps2
      rw [splitComma_append _ (hparts p (List.mem_cons_self p _))]
      rw [ih (fun x hx c hc => hparts x (List.mem_cons_of_mem p hx) c hc)
        (by simp)]

/-! ## `EffFileDialog` sweep parameters (src/frontend/main.py:891-959)

The form state is the dialog's widgets (radio pair, line edits, spin box
per axis); the document state is `data['data']` with its two axis keys.
`QSpinBox.setValue` clamps into the configured range `[2, 1000]`
(main.py:744-745, 776-777); a radio pair always has exactly one button
checked once `populate` ran, modelled by one `Bool` per axis. -/

/-- A stored sweep value: list mode or range mode. -/
inductive SweepValue where
  | list (vs : List ℚ)
  | range (start stop : ℚ) (points : ℤ)
deriving DecidableEq

/-- The two sweep entries of `data['data']`. -/
structure EffData where
  vinLoop : Option SweepValue
  ioutLoop : Option SweepValue
deriving DecidableEq

/-- The sweep-related widgets of `EffFileDialog`. -/
structure EffForm where
  list_radio : Bool
  vin_list_edit : List Char
  vin_start_edit : List Char
  vin_stop_edit : List Char
  vin_points_spin : ℤ
  iout_list_radio : Bool
  iout_list_edit : List Char
  iout_start_edit : List Char
  iout_stop_edit : List Char
  iout_points_spin : ℤ
deriving DecidableEq

/-- `QSpinBox.setValue` with range `[2, 1000]`: clamps. -/
def spinSetValue (v : ℤ) : ℤ := max 2 (min 1000 v)

/-- The Vin half of `populate_params_from_json` (main.py:895-903). -/
def populate_vin_axis (v : Option SweepValue) (f : EffForm) : EffForm :=
  match v with
  | some (.list vs) =>
    { f with list_radio := true,
             vin_list_edit := joinComma (vs.map pyStrQ) }
  | some (.range a b p) =>
    { f with list_radio := false,
             vin_start_edit := pyStrQ a,
             vin_stop_edit := pyStrQ b,
             vin_points_spin := spinSetValue p }
  | none => f

/-- The Iout half of `populate_params_from_json` (main.py:904-912). -/
def populate_iout_axis (v : Option SweepValue) (f : EffForm) : EffForm :=
  match v with
  | some (.list vs) =>
    { f with iout_list_radio := true,
             iout_list_edit := joinComma (vs.map pyStrQ) }
  | some (.range a b p) =>
    { f with iout_list_radio := false,
             iout_start_edit := pyStrQ a,
             iout_stop_edit := pyStrQ b,
             iout_points_spin := spinSetValue p }
  | none => f

/-- `EffFileDialog.populate_params_from_json` (main.py:891-912), sweep
part: fill each axis's widgets from the stored value when present. -/
def populate_params_from_json (d : EffData) (f : EffForm) : EffForm :=
  populate_iout_axis d.ioutLoop (populate_vin_axis d.vinLoop f)

/-- `[float(x.strip()) for x in t.split(',') if x.strip()]`: `none` when
any token fails to parse (the Python exception aborts the whole list). -/
def allSome : List (Option ℚ) → Option (List ℚ)
  | [] => some []
  | none :: _ => none
  | some x :: rest => (allSome rest).map (fun l => x :: l)

/-- The list-mode parser of `apply_params_to_json` (main.py:933, 947). -/
def parseFloatList (t : List Char) : Option (List ℚ) :=
  allSome (((splitComma t).filter
    (fun x => pyStrip x ≠ [])).map (fun x => pyFloat (pyStrip x)))

/-- The Vin half of `apply_params_to_json` (main.py:931-944): list mode
stores the parsed float list, range mode stores `{start, stop, points}`;
a parse failure leaves the document untouched. -/
def apply_vin_axis (f : EffForm) (d : EffData) : EffData :=
  if f.list_radio then
    match parseFloatList f.vin_list_edit with
    | some vs => { d with vinLoop := some (.list vs) }
    | none => d
  else
    match pyFloat f.vin_start_edit, pyFloat f.vin_stop_edit with
    | some a, some b =>
      { d with vinLoop := some (.range a b f.vin_points_spin) }
    | _, _ => d

/-- The Iout half of `apply_params_to_json` (main.py:945-958). -/
def apply_iout_axis (f : EffForm) (d : EffData) : EffData :=
  if f.iout_list_radio then
    match parseFloatList f.iout_list_edit with
    | some vs => { d with ioutLoop := some (.list vs) }
    | none => d
  else
    match pyFloat f.iout_start_edit, pyFloat f.iout_stop_edit with
    | some a, some b =>
      { d with ioutLoop := some (.range a b f.iout_points_spin) }
    | _, _ => d

/-- `EffFileDialog.apply_params_to_json` (main.py:925-959), sweep part. -/
def apply_params_to_json (f : EffForm) (d : EffData) : EffData :=
  apply_iout_axis f (apply_vin_axis f d)

/-- A valid sweep spec in the claim's sense: a finite list of floats, or
start/stop floats with an integer point count in `[2, 1000]`. -/
def validSweepValue : SweepValue → Prop
  | .list vs => ∀ v ∈ vs, isDecimalRat v = true
  | .range a b p =>
    isDecimalRat a = true ∧ isDecimalRat b = true ∧ 2 ≤ p ∧ p ≤ 1000

theorem allSome_map_some (l : List ℚ) : allSome (l.map some) = some l := by
  induction l with
  | nil => rfl
  | cons x rest ih => simp [allSome, ih]

/-- Round trip of list mode: joining, splitting, filtering and parsing
reproduce the float list. -/
theorem parseFloatList_joinComma (vs : List ℚ)
    (h : ∀ v ∈ vs, isDecimalRat v = true) :
    parseFloatList (joinComma (vs.map pyStrQ)) = some vs := by
  cases vs with
  | nil => rfl
  | cons v0 rest =>
    unfold parseFloatList
    rw [splitComma_joinComma ((v0 :: rest).map pyStrQ)
      (by
        intro p hp c hc
        obtain ⟨v, hv, rfl⟩ := List.mem_map.mp hp
        exact pyStrQ_no_comma (h v hv) c hc)
      (by simp)]
    rw [List.filter_eq_self.mpr
      (by
        intro p hp
        obtain ⟨v, hv, rfl⟩ := List.mem_map.mp hp
        rw [pyStrip_eq_self (pyStrQ_no_ws (h v hv))]
        simpa using pyStrQ_ne_nil (h v hv))]
    rw [List.map_map]
    rw [List.map_congr_left
      (by
        intro v hv
        show pyFloat (pyStrip (pyStrQ v)) = some v
        rw [pyStrip_eq_self (pyStrQ_no_ws (h v hv))]
        exact pyFloat_pyStrQ v (h v hv))]
    exact allSome_map_some (v0 :: rest)

theorem spinSetValue_of_range {p : ℤ} (h1 : 2 ≤ p) (h2 : p ≤ 1000) :
    spinSetValue p = p := by
  unfold spinSetValue
  omega

theorem populate_iout_vin_fields (v : Option SweepValue) (f : EffForm) :
    (populate_iout_axis v f).list_radio = f.list_radio ∧
    (populate_iout_axis v f).vin_list_edit = f.vin_list_edit ∧
    (populate_iout_axis v f).vin_start_edit = f.vin_start_edit ∧
    (populate_iout_axis v f).vin_stop_edit = f.vin_stop_edit ∧
    (populate_iout_axis v f).vin_points_spin = f.vin_points_spin := by
  cases v with
  | none => exact ⟨rfl, rfl, rfl, rfl, rfl⟩
  | some s =>
    cases s with
    | list vs => exact ⟨rfl, rfl, rfl, rfl, rfl⟩
    | range a b p => exact ⟨rfl, rfl, rfl, rfl, rfl⟩

theorem apply_iout_vinLoop (f : EffForm) (d : EffData) :
    (apply_iout_axis f d).vinLoop = d.vinLoop := by
  unfold apply_iout_axis
  split_ifs with h
  · cases parseFloatList f.iout_list_edit <;> rfl
  · cases pyFloat f.iout_start_edit <;> cases pyFloat f.iout_stop_edit <;> rfl

theorem apply_vin_ioutLoop (f : EffForm) (d : EffData) :
    (apply_vin_axis f d).ioutLoop = d.ioutLoop := by
  unfold apply_vin_axis
  split_ifs with h
  · cases parseFloatList f.vin_list_edit <;> rfl
  · cases pyFloat f.vin_start_edit <;> cases pyFloat f.vin_stop_edit <;> rfl

theorem apply_vin_axis_congr {f g : EffForm} (d : EffData)
    (h1 : f.list_radio = g.list_radio)
    (h2 : f.vin_list_edit = g.vin_list_edit)
    (h3 : f.vin_start_edit = g.vin_start_edit)
    (h4 : f.vin_stop_edit = g.vin_stop_edit)
    (h5 : f.vin_points_spin = g.vin_points_spin) :
    apply_vin_axis f d = apply_vin_axis g d := by
  unfold apply_vin_axis
  rw [h1, h2, h3, h4, h5]

theorem apply_vin_populate_vin (g : EffForm) (s : SweepValue) (d : EffData)
    (hv : validSweepValue s) :
    (apply_vin_axis (populate_vin_axis (some s) g) d).vinLoop = some s := by
  cases s with
  | list vs =>
    show (apply_vin_axis
      { g with list_radio := true,
               vin_list_edit := joinComma (vs.map pyStrQ) } d).vinLoop =
      some (.list vs)
    unfold apply_vin_axis
    rw [if_pos rfl]
    show (match parseFloatList (joinComma (vs.map pyStrQ)) with
      | some vs => { d with vinLoop := some (.list vs) }
      | none => d).vinLoop = some (.list vs)
    rw [parseFloatList_joinComma vs hv]
  | range a b p =>
    obtain ⟨ha, hb, hp1, hp2⟩ := hv
    show (apply_vin_axis
      { g with list_radio := false,
               vin_start_edit := pyStrQ a,
               vin_stop_edit := pyStrQ b,
               vin_points_spin := spinSetValue p } d).vinLoop =
      some (.range a b p)
    unfold apply_vin_axis
    rw [if_neg (by simp)]
    show (match pyFloat (pyStrQ a), pyFloat (pyStrQ b) with
      | some x, some y =>
        { d with vinLoop := some (.range x y (spinSetValue p)) }
      | _, _ => d).vinLoop = some (.range a b p)
    rw [pyFloat_pyStrQ a ha, pyFloat_pyStrQ b hb]
    show some (SweepValue.range a b (spinSetValue p)) = some (.range a b p)
    rw [spinSetValue_of_range hp1 hp2]

theorem apply_iout_populate_iout (g : EffForm) (s : SweepValue) (d : EffData)
    (hv : validSweepValue s) :
    (apply_iout_axis (populate_iout_axis (some s) g) d).ioutLoop = some s := by
  cases s with
  | list vs =>
    show (apply_iout_axis
      { g with iout_list_radio := true,
               iout_list_edit := joinComma (vs.map pyStrQ) } d).ioutLoop =
      some (.list vs)
    unfold apply_iout_axis
    rw [if_pos rfl]
    show (match parseFloatList (joinComma (vs.map pyStrQ)) with
      | some vs => { d with ioutLoop := some (.list vs) }
      | none => d).ioutLoop = some (.list vs)
    rw [parseFloatList_joinComma vs hv]
  | range a b p =>
    obtain ⟨ha, hb, hp1, hp2⟩ := hv
    show (apply_iout_axis
      { g with iout_list_radio := false,
               iout_start_edit := pyStrQ a,
               iout_stop_edit := pyStrQ b,
               iout_points_spin := spinSetValue p } d).ioutLoop =
      some (.range a b p)
    unfold apply_iout_axis
    rw [if_neg (by simp)]
    show (match pyFloat (pyStrQ a), pyFloat (pyStrQ b) with
      | some x, some y =>
        { d with ioutLoop := some (.range x y (spinSetValue p)) }
      | _, _ => d).ioutLoop = some (.range a b p)
    rw [pyFloat_pyStrQ a ha, pyFloat_pyStrQ b hb]
    show some (SweepValue.range a b (spinSetValue p)) = some (.range a b p)
    rw [spinSetValue_of_range hp1 hp2]

/-- C4: for every valid sweep spec stored on either axis, populating the
form from the document and re-applying the form to the document
reproduces exactly the same list, or the same start/stop/points triple. -/
theorem sweep_round_trip (d : EffData) (f : EffForm) :
    (∀ s, d.vinLoop = some s → validSweepValue s →
      (apply_params_to_json (populate_params_from_json d f) d).vinLoop =
        some s) ∧
    (∀ s, d.ioutLoop = some s → validSweepValue s →
      (apply_params_to_json (populate_params_from_json d f) d).ioutLoop =
        some s) := by
  constructor
  · intro s hd hv
    unfold apply_params_to_json
    rw [apply_iout_vinLoop]
    obtain ⟨h1, h2, h3, h4, h5⟩ :=
      populate_iout_vin_fields d.ioutLoop (populate_vin_axis d.vinLoop f)
    unfold populate_params_from_json
    rw [apply_vin_axis_congr d h1 h2 h3 h4 h5]
    rw [hd]
    exact apply_vin_populate_vin f s d hv
  · intro s hd hv
    unfold apply_params_to_json
    have hmid : (apply_vin_axis (populate_params_from_json d f) d).ioutLoop =
        d.ioutLoop := apply_vin_ioutLoop _ d
    unfold populate_params_from_json
    rw [hd]
    -- the iout fields read by `apply_iout_axis` are those set by
    -- `populate_iout_axis (some s)`; the data argument's ioutLoop is
    -- irrelevant to the result on success, shown by the lemma below
    have := apply_iout_populate_iout (populate_vin_axis d.vinLoop f) s
      (apply_vin_axis
        (populate_iout_axis (some s) (populate_vin_axis d.vinLoop f)) d) hv
    exact this

unseal Rat.mul Rat.inv Rat.add Rat.sub in
/-- Witness for C4: a concrete document holding the list `[1.5, 2.0]` on
the Vin axis and the range `{0.25, 5.0, 10}` on the Iout axis round-trips
through an arbitrary initial form state. -/
theorem sweep_round_trip_witness :
    (apply_params_to_json (populate_params_from_json
        ⟨some (.list [3 / 2, 2]), some (.range (1 / 4) 5 10)⟩
        ⟨true, [], [], [], 5, true, [], [], [], 5⟩)
        ⟨some (.list [3 / 2, 2]), some (.range (1 / 4) 5 10)⟩).vinLoop =
      some (.list [3 / 2, 2]) ∧
    (apply_params_to_json (populate_params_from_json
        ⟨some (.list [3 / 2, 2]), some (.range (1 / 4) 5 10)⟩
        ⟨true, [], [], [], 5, true, [], [], [], 5⟩)
        ⟨some (.list [3 / 2, 2]), some (.range (1 / 4) 5 10)⟩).ioutLoop =
      some (.range (1 / 4) 5 10) :=
  ⟨(sweep_round_trip
      ⟨some (.list [3 / 2, 2]), some (.range (1 / 4) 5 10)⟩
      ⟨true, [], [], [], 5, true, [], [], [], 5⟩).1
    (.list [3 / 2, 2]) rfl
    (by unfold validSweepValue; decide),
   (sweep_round_trip
      ⟨some (.list [3 / 2, 2]), some (.range (1 / 4) 5 10)⟩
      ⟨true, [], [], [], 5, true, [], [], [], 5⟩).2
    (.range (1 / 4) 5 10) rfl
    (by unfold validSweepValue; decide)⟩
